import Mathlib

/-!
Verification development for the hii_db catalog-build scripts.

The numeric fields of the scripts are modelled over the rationals.  String
fields are modelled as Lean strings; python operations that the scripts use
(str.split, float(), substring tests) are re-implemented below, faithfully to
python semantics on the decimal-literal inputs the catalogs contain.  The
spatial matcher compares the python expression sqrt(dx^2 + dy^2) with max_r;
since sqrt is monotone and both sides are nonnegative for max_r >= 0, the
comparison is represented by squares (dx^2 + dy^2 versus max_r^2), and the
theorems about it carry the hypothesis 0 <= max_r.
-/

/-! ## Splitting on semicolons: python s.split(";") -/

/-- Split a character list at every semicolon, python-style: the empty list
yields one empty field, and consecutive separators yield empty fields. -/
def splitSemiList : List Char → List (List Char)
  | [] => [[]]
  | c :: cs =>
    if c = ';' then [] :: splitSemiList cs
    else
      match splitSemiList cs with
      | [] => [[c]]
      | h :: t => (c :: h) :: t

/-- Model of the python expression s.split(";"). -/
def splitSemi (s : String) : List String :=
  (splitSemiList s.data).map (fun l => String.mk l)

/-- Number of semicolon characters in a string. -/
def semicolonCount (s : String) : ℕ :=
  s.data.countP (fun c => decide (c = ';'))

theorem splitSemiList_ne_nil (cs : List Char) : splitSemiList cs ≠ [] := by
  induction cs with
  | nil => simp [splitSemiList]
  | cons c cs ih =>
    by_cases h : c = ';'
    · simp [splitSemiList, h]
    · simp only [splitSemiList, if_neg h]
      cases hcs : splitSemiList cs with
      | nil => simp
      | cons a t => simp

theorem length_splitSemiList (cs : List Char) :
    (splitSemiList cs).length = cs.countP (fun c => decide (c = ';')) + 1 := by
  induction cs with
  | nil => simp [splitSemiList]
  | cons c cs ih =>
    by_cases h : c = ';'
    · simp [splitSemiList, h, List.countP_cons, ih]
    · simp only [splitSemiList, if_neg h]
      cases hcs : splitSemiList cs with
      | nil => exact absurd hcs (splitSemiList_ne_nil cs)
      | cons a t =>
        rw [hcs] at ih
        simp only [List.length_cons] at ih ⊢
        simp [List.countP_cons, h, ← ih]

theorem length_splitSemi (s : String) :
    (splitSemi s).length = semicolonCount s + 1 := by
  simp [splitSemi, semicolonCount, length_splitSemiList]

/-! ## Parsing decimal literals: python float() on catalog fields -/

/-- Numeric value of a digit character. -/
def digitVal (c : Char) : ℕ := c.toNat - 48

/-- Value of a digit string read most-significant first. -/
def natVal (l : List Char) : ℕ := l.foldl (fun a c => 10 * a + digitVal c) 0

/-- Model of python float() restricted to the plain decimal literals that occur
in the catalog fields: an optional sign, digits, an optional point and more
digits.  The empty string and malformed strings give none, modelling the
ValueError that float() raises on them. -/
def parseFlt (s : String) : Option ℚ :=
  let cs := s.data
  let sgn : ℚ := if cs.head? = some '-' then -1 else 1
  let cs' := if cs.head? = some '-' ∨ cs.head? = some '+' then cs.tail else cs
  let ip := cs'.takeWhile (fun c => c.isDigit)
  let rest := cs'.dropWhile (fun c => c.isDigit)
  match rest with
  | [] => if ip.isEmpty then none else some (sgn * (natVal ip : ℚ))
  | '.' :: fp =>
    if fp.all (fun c => c.isDigit) ∧ (ip ≠ [] ∨ fp ≠ []) then
      some (sgn * ((natVal ip : ℚ) + (natVal fp : ℚ) / 10 ^ fp.length))
    else none
  | _ => none

/-! ## Identifier Generator (wise_stuff.py, generate_gname)

The source formats np.floor(x * 1000) / 1000 with the format specs 07.3f and
+07.3f.  The formatted value always has exactly three decimals, so it is
determined by the integer floor(x * 1000) of thousandths; fmtFixed3 below
reproduces the python fixed-point rendering of n / 1000 with width 7,
zero-padding after the sign. -/

/-- Left-pad a string with zeros to the given width (python zero padding). -/
def padZeros (s : String) (w : ℕ) : String :=
  if w ≤ s.length then s else String.mk (List.replicate (w - s.length) '0') ++ s

/-- Render n / 1000 in fixed-point with three decimals and total width 7,
with a forced plus sign when forceSign is set: the python format specs
07.3f and +07.3f applied to a multiple of 1/1000. -/
def fmtFixed3 (forceSign : Bool) (n : ℤ) : String :=
  let sign : String := if n < 0 then "-" else if forceSign then "+" else ""
  let a := n.natAbs
  let body := toString (a / 1000) ++ "." ++ padZeros (toString (a % 1000)) 3
  sign ++ padZeros body (7 - sign.length)

/-- Embedding of generate_gname (src/wise_stuff.py lines 171-176): the G
prefix, the floored longitude in 07.3f, the floored latitude in +07.3f.  The
source performs no validation of the inputs. -/
def generate_gname (glong glat : ℚ) : String :=
  "G" ++ fmtFixed3 false ⌊glong * 1000⌋ ++ fmtFixed3 true ⌊glat * 1000⌋

/-- Modelled from the spec: truncation to three decimals in the sense of
dropping the digits beyond the third decimal (rounding toward zero), the
behavior the spec ascribes to the identifier generator.  Stated as the
truncated count of thousandths. -/
def truncThousandths (x : ℚ) : ℤ :=
  if 0 ≤ x then ⌊x * 1000⌋ else -⌊-x * 1000⌋

/-- C5 counterexample: the claim says truncation (dropping digits, not
floor-to-minus-infinity) governs negative latitudes.  At glat = -0.5405 the
code floors -540.5 to -541 and renders -00.541, while dropping digits beyond
the third decimal gives -0.540, rendered -00.540. -/
theorem generate_gname_negative_truncation_refuted :
    generate_gname 0 (-1081/2000) = "G000.000-00.541" ∧
    truncThousandths (-1081/2000) = -540 ∧
    fmtFixed3 true (truncThousandths (-1081/2000)) = "-00.540" ∧
    ("G000.000-00.541" : String) ≠ "G000.000-00.540" := by
  have h0 : (⌊((0:ℚ)) * 1000⌋ : ℤ) = 0 := by norm_num
  have h1 : (⌊((-1081/2000:ℚ)) * 1000⌋ : ℤ) = -541 := by
    norm_num
  have h2 : truncThousandths (-1081/2000) = -540 := by
    have hx : ¬ (0:ℚ) ≤ -1081/2000 := by norm_num
    rw [truncThousandths, if_neg hx]
    norm_num
  refine ⟨?_, h2, ?_, ?_⟩
  · unfold generate_gname
    rw [h0, h1]
    decide
  · rw [h2]; decide
  · decide

/-- C5 (amended): for nonnegative inputs the code's floor of thousandths
equals truncation to three decimals, so the documented longitude boundary
examples hold (12.5769999 and 12.576001 give 012.576, 12.577 gives 012.577),
and the function is pure; negative latitudes, however, are floored toward
minus infinity rather than truncated. -/
theorem generate_gname_truncation :
    (∀ x : ℚ, 0 ≤ x → (⌊x * 1000⌋ : ℤ) = truncThousandths x) ∧
    generate_gname (125769999/10000000) 0 = "G012.576+00.000" ∧
    generate_gname (12576001/1000000) 0 = "G012.576+00.000" ∧
    generate_gname (12577/1000) 0 = "G012.577+00.000" ∧
    (∀ x y : ℚ, generate_gname x y = generate_gname x y) := by
  have h0 : (⌊((0:ℚ)) * 1000⌋ : ℤ) = 0 := by norm_num
  refine ⟨?_, ?_, ?_, ?_, fun x y => rfl⟩
  · intro x hx
    rw [truncThousandths, if_pos hx]
  · have h1 : (⌊((125769999/10000000:ℚ)) * 1000⌋ : ℤ) = 12576 := by norm_num
    unfold generate_gname
    rw [h0, h1]
    decide
  · have h1 : (⌊((12576001/1000000:ℚ)) * 1000⌋ : ℤ) = 12576 := by norm_num
    unfold generate_gname
    rw [h0, h1]
    decide
  · have h1 : (⌊((12577/1000:ℚ)) * 1000⌋ : ℤ) = 12577 := by norm_num
    unfold generate_gname
    rw [h0, h1]
    decide

/-- Witness for the hypothesis-bearing part of the C5 theorem, at x = 3/2. -/
theorem generate_gname_truncation_witness :
    (⌊(3/2 : ℚ) * 1000⌋ : ℤ) = truncThousandths (3/2) :=
  generate_gname_truncation.1 (3/2) (by norm_num)

/-- C8 counterexample: the claim says the generator fails with
InvalidCoordinate and produces no identifier when glat is outside [-90, 90];
at glat = -100 the code produces the identifier G000.000-100.000 and there is
no failure path at all. -/
theorem generate_gname_invalid_coordinate_refuted :
    generate_gname 0 (-100) = "G000.000-100.000" := by
  have h0 : (⌊((0:ℚ)) * 1000⌋ : ℤ) = 0 := by norm_num
  have h1 : (⌊((-100:ℚ)) * 1000⌋ : ℤ) = -100000 := by norm_num
  unfold generate_gname
  rw [h0, h1]
  decide

/-- C8 (amended): generate_gname performs no validation whatever: it is a
total function that returns a G-prefixed identifier string for every rational
input, including glong outside [0, 360) and glat outside [-90, 90]. -/
theorem generate_gname_no_validation :
    (∀ x y : ℚ, ∃ s : String, generate_gname x y = "G" ++ s) ∧
    generate_gname 10 100 = "G010.000+100.000" ∧
    generate_gname 370 0 = "G370.000+00.000" := by
  have h0 : (⌊((0:ℚ)) * 1000⌋ : ℤ) = 0 := by norm_num
  refine ⟨fun x y => ⟨fmtFixed3 false ⌊x * 1000⌋ ++ fmtFixed3 true ⌊y * 1000⌋, ?_⟩, ?_, ?_⟩
  · unfold generate_gname
    rw [String.append_assoc]
  · have h1 : (⌊((10:ℚ)) * 1000⌋ : ℤ) = 10000 := by norm_num
    have h2 : (⌊((100:ℚ)) * 1000⌋ : ℤ) = 100000 := by norm_num
    unfold generate_gname
    rw [h1, h2]
    decide
  · have h1 : (⌊((370:ℚ)) * 1000⌋ : ℤ) = 370000 := by norm_num
    unfold generate_gname
    rw [h1, h0]
    decide

/-! ## Stable insertion sort

The scripts order rows with pandas sort_values and np.argsort.  Both are
modelled by a stable sort: among rows whose keys compare equal, input order is
kept.  (numpy and pandas use an unstable quicksort by default, so on exactly
tied keys the source's order among the tied rows is unspecified; the stable
model fixes the first-seen order, and every theorem that depends on tie order
either assumes distinct keys or concerns the claim's documented first-seen
behavior.) -/

def insertBy {α : Type} (r : α → α → Bool) (a : α) : List α → List α
  | [] => [a]
  | b :: l => if r a b then a :: b :: l else b :: insertBy r a l

def sortBy {α : Type} (r : α → α → Bool) : List α → List α
  | [] => []
  | a :: l => insertBy r a (sortBy r l)

theorem perm_insertBy {α : Type} (r : α → α → Bool) (a : α) (l : List α) :
    (insertBy r a l).Perm (a :: l) := by
  induction l with
  | nil => simp [insertBy]
  | cons b l ih =>
    by_cases h : r a b = true
    · simp [insertBy, h]
    · simp only [insertBy, if_neg h]
      exact (ih.cons b).trans (List.Perm.swap a b l)

theorem perm_sortBy {α : Type} (r : α → α → Bool) (l : List α) :
    (sortBy r l).Perm l := by
  induction l with
  | nil => simp [sortBy]
  | cons a l ih => exact (perm_insertBy r a (sortBy r l)).trans (ih.cons a)

theorem mem_insertBy {α : Type} {r : α → α → Bool} {a x : α} {l : List α}
    (h : x ∈ insertBy r a l) : x = a ∨ x ∈ l := by
  have := (perm_insertBy r a l).mem_iff.mp h
  simpa using this

theorem pairwise_insertBy {α : Type} {r : α → α → Bool}
    (htot : ∀ x y, r x y = true ∨ r y x = true)
    (htrans : ∀ x y z, r x y = true → r y z = true → r x z = true)
    {a : α} {l : List α} (hl : l.Pairwise (fun x y => r x y = true)) :
    (insertBy r a l).Pairwise (fun x y => r x y = true) := by
  induction l with
  | nil => simp [insertBy]
  | cons b l ih =>
    rcases List.pairwise_cons.mp hl with ⟨hb, hl'⟩
    by_cases h : r a b = true
    · simp only [insertBy, if_pos h]
      refine List.pairwise_cons.mpr ⟨?_, hl⟩
      intro x hx
      rcases List.mem_cons.mp hx with rfl | hx
      · exact h
      · exact htrans a b x h (hb x hx)
    · simp only [insertBy, if_neg h]
      refine List.pairwise_cons.mpr ⟨?_, ih hl'⟩
      intro x hx
      rcases mem_insertBy hx with rfl | hx
      · rcases htot x b with hxb | hbx
        · exact absurd hxb h
        · exact hbx
      · exact hb x hx

theorem pairwise_sortBy {α : Type} {r : α → α → Bool}
    (htot : ∀ x y, r x y = true ∨ r y x = true)
    (htrans : ∀ x y z, r x y = true → r y z = true → r x z = true)
    (l : List α) : (sortBy r l).Pairwise (fun x y => r x y = true) := by
  induction l with
  | nil => simp [sortBy]
  | cons a l ih => exact pairwise_insertBy htot htrans ih

/-! ## Name Matcher (wise_stuff.py, match_by_name)

A survey record is modelled by its Name field and its ordering key (the
order_by column, typically Year).  The source iterates over the row's
Name_Split aliases; for each alias with matching rows it OVERWRITES
matched_row with the top row for that alias (sort_values descending on the
key, then iloc[0]); the surrounding column renaming does not affect which
row is selected and is not modelled. -/

structure SRec where
  name : String
  year : ℤ
deriving DecidableEq

/-- Descending comparison on the ordering key, as used by
sort_values(by=order_by, ascending=False). -/
def yearDesc (a b : SRec) : Bool := decide (b.year ≤ a.year)

/-- Model of sort_values(by=order_by, ascending=False).iloc[0]: the head of
the descending stable sort, i.e. the first row attaining the maximal key. -/
def pickTop (l : List SRec) : Option SRec := (sortBy yearDesc l).head?

/-- One iteration of the alias loop of match_by_name: rows whose Name equals
the alias are selected; when any exist, the previous match is overwritten. -/
def matchStep (records : List SRec) (useOrder : Bool) (acc : Option SRec)
    (nm : String) : Option SRec :=
  let ms := records.filter (fun r => r.name == nm)
  if ms.isEmpty then acc
  else if useOrder then pickTop ms else ms.head?

/-- Embedding of the row-selection core of match_by_name
(src/wise_stuff.py lines 40-58): fold of the alias loop, useOrder true when
an order_by column is supplied and present. -/
def match_by_name (aliases : List String) (records : List SRec)
    (useOrder : Bool) : Option SRec :=
  aliases.foldl (matchStep records useOrder) none

/-- The last alias in the list for which some record's Name matches. -/
def aliasStep (records : List SRec) (acc : Option String) (nm : String) :
    Option String :=
  if (records.filter (fun r => r.name == nm)).isEmpty then acc else some nm

def lastMatchingAlias (aliases : List String) (records : List SRec) :
    Option String :=
  aliases.foldl (aliasStep records) none

/-- Best record for one alias: the top of the descending sort of the rows
whose Name equals the alias. -/
def bestForAlias (records : List SRec) (nm : String) : Option SRec :=
  pickTop (records.filter (fun r => r.name == nm))

theorem yearDesc_total : ∀ x y : SRec, yearDesc x y = true ∨ yearDesc y x = true := by
  intro x y
  simp only [yearDesc, decide_eq_true_eq]
  exact le_total y.year x.year

theorem yearDesc_trans : ∀ x y z : SRec,
    yearDesc x y = true → yearDesc y z = true → yearDesc x z = true := by
  intro x y z hxy hyz
  simp only [yearDesc, decide_eq_true_eq] at hxy hyz ⊢
  exact le_trans hyz hxy

theorem pickTop_mem {l : List SRec} {r : SRec} (h : pickTop l = some r) : r ∈ l := by
  have hmem : r ∈ sortBy yearDesc l := by
    rcases List.head?_eq_some_iff.mp h with ⟨t, ht⟩
    rw [ht]; exact List.mem_cons_self r t
  exact (perm_sortBy yearDesc l).mem_iff.mp hmem

theorem pickTop_max {l : List SRec} {r : SRec} (h : pickTop l = some r) :
    ∀ x ∈ l, x.year ≤ r.year := by
  intro x hx
  rcases List.head?_eq_some_iff.mp h with ⟨t, ht⟩
  have hsorted := pairwise_sortBy yearDesc_total yearDesc_trans l
  rw [ht] at hsorted
  have hx' : x ∈ sortBy yearDesc l := (perm_sortBy yearDesc l).mem_iff.mpr hx
  rw [ht] at hx'
  rcases List.mem_cons.mp hx' with rfl | hx'
  · exact le_refl _
  · have := (List.pairwise_cons.mp hsorted).1 x hx'
    simpa [yearDesc] using this

theorem pickTop_isSome {l : List SRec} (h : l ≠ []) : ∃ r, pickTop l = some r := by
  cases hs : sortBy yearDesc l with
  | nil =>
    have hp := perm_sortBy yearDesc l
    rw [hs] at hp
    exact absurd hp.symm.eq_nil h
  | cons a t => exact ⟨a, by simp [pickTop, hs]⟩

theorem pickTop_perm_distinct {l' l : List SRec} (hperm : l'.Perm l)
    (hdist : l.Pairwise (fun a b => a.year ≠ b.year)) : pickTop l' = pickTop l := by
  cases l with
  | nil =>
    rw [hperm.eq_nil]
  | cons a t =>
    have hl' : l' ≠ [] := by
      intro hnil
      rw [hnil] at hperm
      exact absurd hperm.symm.eq_nil (by simp)
    rcases pickTop_isSome hl' with ⟨r', hr'⟩
    rcases pickTop_isSome (l := a :: t) (by simp) with ⟨r, hr⟩
    rw [hr', hr]
    have hr'mem : r' ∈ a :: t := hperm.mem_iff.mp (pickTop_mem hr')
    have hrmem : r ∈ a :: t := pickTop_mem hr
    have h1 : r'.year ≤ r.year := pickTop_max hr r' hr'mem
    have h2 : r.year ≤ r'.year := pickTop_max hr' r (hperm.mem_iff.mpr hrmem)
    have heq : r.year = r'.year := le_antisymm h2 h1
    by_cases hne : r = r'
    · rw [hne]
    · have hsym : Symmetric (fun a b : SRec => a.year ≠ b.year) := by
        intro x y hxy
        exact fun hyx => hxy hyx.symm
      exact absurd heq (hdist.forall hsym hrmem hr'mem hne)

theorem foldl_matchStep_eq (records : List SRec) (aliases : List String) :
    ∀ a : Option String,
      aliases.foldl (matchStep records true) (a.bind (bestForAlias records)) =
        (aliases.foldl (aliasStep records) a).bind (bestForAlias records) := by
  induction aliases with
  | nil => intro a; rfl
  | cons nm rest ih =>
    intro a
    by_cases h : (records.filter (fun r => r.name == nm)).isEmpty
    · simp only [List.foldl_cons]
      have h1 : matchStep records true (a.bind (bestForAlias records)) nm =
          a.bind (bestForAlias records) := by
        simp [matchStep, h]
      have h2 : aliasStep records a nm = a := by simp [aliasStep, h]
      rw [h1, h2]
      exact ih a
    · simp only [List.foldl_cons]
      have h1 : matchStep records true (a.bind (bestForAlias records)) nm =
          (some nm).bind (bestForAlias records) := by
        simp [matchStep, h, bestForAlias]
      have h2 : aliasStep records a nm = some nm := by simp [aliasStep, h]
      rw [h1, h2]
      exact ih (some nm)

theorem match_by_name_eq_lastAlias (aliases : List String) (records : List SRec) :
    match_by_name aliases records true =
      (lastMatchingAlias aliases records).bind (bestForAlias records) := by
  have := foldl_matchStep_eq records aliases none
  simpa [match_by_name, lastMatchingAlias] using this

theorem lastMatchingAlias_perm {records' records : List SRec}
    (hperm : records'.Perm records) (aliases : List String) :
    lastMatchingAlias aliases records' = lastMatchingAlias aliases records := by
  have hstep : ∀ (a : Option String) (nm : String),
      aliasStep records' a nm = aliasStep records a nm := by
    intro a nm
    have hlen : (records'.filter (fun r => r.name == nm)).length =
        (records.filter (fun r => r.name == nm)).length :=
      (hperm.filter (fun r => r.name == nm)).length_eq
    simp only [aliasStep, List.isEmpty_iff, ← List.length_eq_zero, hlen]
  unfold lastMatchingAlias
  generalize (none : Option String) = a
  induction aliases generalizing a with
  | nil => rfl
  | cons nm rest ih =>
    simp only [List.foldl_cons, hstep a nm]
    exact ih _

/-- C1 counterexample: alias list ["A", "B"] with a record named A from 2020
and a record named B from 2010.  The record with the highest ordering key
matching an alias is the A record (year 2020), but the code returns the B
record, because the alias loop overwrites the match with the best row of each
later alias that matches anything. -/
theorem match_by_name_global_max_refuted :
    match_by_name ["A", "B"] [SRec.mk "A" 2020, SRec.mk "B" 2010] true =
      some (SRec.mk "B" 2010) ∧
    SRec.mk "A" 2020 ∈ [SRec.mk "A" 2020, SRec.mk "B" 2010] ∧
    (SRec.mk "A" 2020).name ∈ ["A", "B"] ∧
    (2010 : ℤ) < 2020 := by
  refine ⟨?_, by decide, by decide, by decide⟩
  decide

/-- C1 (amended): match_by_name returns the best record (highest ordering
key) for the LAST alias in the alias list that matches any record, not the
best over all aliases; when the ordering keys of the records are pairwise
distinct, the returned record is independent of the iteration order of the
record set. -/
theorem match_by_name_last_alias (aliases : List String)
    (records' records : List SRec) (hperm : records'.Perm records)
    (hdist : records.Pairwise (fun a b => a.year ≠ b.year)) :
    match_by_name aliases records' true = match_by_name aliases records true ∧
    ∀ r, match_by_name aliases records true = some r →
      ∃ nm, lastMatchingAlias aliases records = some nm ∧ r.name = nm ∧
        r ∈ records ∧ ∀ x ∈ records, x.name = nm → x.year ≤ r.year := by
  constructor
  · rw [match_by_name_eq_lastAlias, match_by_name_eq_lastAlias,
      lastMatchingAlias_perm hperm aliases]
    cases lastMatchingAlias aliases records with
    | none => rfl
    | some nm =>
      exact pickTop_perm_distinct (hperm.filter (fun r => r.name == nm))
        (hdist.sublist (List.filter_sublist records))
  · intro r hr
    rw [match_by_name_eq_lastAlias] at hr
    rcases Option.bind_eq_some.mp hr with ⟨nm, hnm, hbest⟩
    refine ⟨nm, hnm, ?_, ?_, ?_⟩
    · have := pickTop_mem hbest
      have := List.mem_filter.mp this
      simpa using this.2
    · exact (List.mem_filter.mp (pickTop_mem hbest)).1
    · intro x hx hxnm
      exact pickTop_max hbest x (List.mem_filter.mpr ⟨hx, by simp [hxnm]⟩)

/-- Witness for the C1 theorem at a concrete alias list, record set and
permutation of it. -/
theorem match_by_name_last_alias_witness :
    match_by_name ["A", "B"] [SRec.mk "B" 2010, SRec.mk "A" 2020] true =
      match_by_name ["A", "B"] [SRec.mk "A" 2020, SRec.mk "B" 2010] true :=
  (match_by_name_last_alias ["A", "B"] [SRec.mk "B" 2010, SRec.mk "A" 2020]
    [SRec.mk "A" 2020, SRec.mk "B" 2010] (by decide) (by decide)).1

/-! ## Spatial Matcher (wise_stuff.py, match_lists)

The source builds the matrix of sqrt((x1-x2)^2 + (y1-y2)^2), takes the
column-wise argmin (np.argmin returns the first index attaining the minimum),
writes -1 where the column minimum exceeds max_r, and then, when both
velocity arrays are given, for every column whose minimum is attained more
than once overwrites the entry with np.argmin(np.abs(z1 - z2[i])) - the
velocity argmin over ALL first-list points, regardless of the -1 sentinel.
Distance comparisons are represented by squared separations (see the header
comment). -/

def sepSq (a b : ℚ × ℚ) : ℚ := (a.1 - b.1) ^ 2 + (a.2 - b.2) ^ 2

/-- The column of squared separations of every first-list point from b. -/
def colDists (A : List (ℚ × ℚ)) (b : ℚ × ℚ) : List ℚ := A.map (fun p => sepSq p b)

/-- Column minimum: np.min over axis 0 of the distance matrix. -/
def minD : List ℚ → ℚ
  | [] => 0
  | [x] => x
  | x :: y :: t => min x (minD (y :: t))

/-- First index attaining the minimum: np.argmin. -/
def argminQ : List ℚ → ℕ
  | [] => 0
  | [_] => 0
  | x :: y :: t => if x ≤ minD (y :: t) then 0 else argminQ (y :: t) + 1

theorem minD_le (l : List ℚ) : ∀ d ∈ l, minD l ≤ d := by
  induction l with
  | nil => intro d hd; simp at hd
  | cons x t ih =>
    intro d hd
    cases t with
    | nil =>
      rcases List.mem_cons.mp hd with rfl | hd'
      · simp [minD]
      · simp at hd'
    | cons y ts =>
      simp only [minD]
      rcases List.mem_cons.mp hd with rfl | hd'
      · exact min_le_left _ _
      · exact le_trans (min_le_right _ _) (ih d hd')

theorem argminQ_lt_length (l : List ℚ) (h : l ≠ []) : argminQ l < l.length := by
  induction l with
  | nil => simp at h
  | cons x t ih =>
    cases t with
    | nil => simp [argminQ]
    | cons y ts =>
      simp only [argminQ]
      by_cases hx : x ≤ minD (y :: ts)
      · simp [hx]
      · simp only [if_neg hx, List.length_cons]
        have := ih (by simp)
        simp only [List.length_cons] at this
        omega

theorem getD_argminQ (l : List ℚ) (h : l ≠ []) : l.getD (argminQ l) 0 = minD l := by
  induction l with
  | nil => simp at h
  | cons x t ih =>
    cases t with
    | nil => simp [argminQ, minD]
    | cons y ts =>
      simp only [argminQ, minD]
      by_cases hx : x ≤ minD (y :: ts)
      · simp [hx, min_eq_left hx]
      · have hlt : minD (y :: ts) < x := not_le.mp hx
        simp only [if_neg hx, List.getD_cons_succ]
        rw [ih (by simp)]
        exact (min_eq_right (le_of_lt hlt)).symm

theorem argminQ_first (l : List ℚ) : ∀ k < argminQ l, minD l < l.getD k 0 := by
  induction l with
  | nil => intro k hk; simp [argminQ] at hk
  | cons x t ih =>
    cases t with
    | nil => intro k hk; simp [argminQ] at hk
    | cons y ts =>
      intro k hk
      simp only [argminQ] at hk
      by_cases hx : x ≤ minD (y :: ts)
      · rw [if_pos hx] at hk; omega
      · rw [if_neg hx] at hk
        have hlt : minD (y :: ts) < x := not_le.mp hx
        have hmin : minD (x :: y :: ts) = minD (y :: ts) := by
          simp only [minD]
          exact min_eq_right (le_of_lt hlt)
        cases k with
        | zero =>
          rw [hmin, List.getD_cons_zero]
          exact hlt
        | succ j =>
          rw [hmin, List.getD_cons_succ]
          exact ih j (by omega)

/-- One entry of the result of match_lists: the value written at the column
of the second-list point b, whose per-column radius is maxr and whose
velocity (when the second velocity array is given) is zb. -/
def closestEntry (A : List (ℚ × ℚ)) (maxr : ℚ) (z1 : Option (List ℚ))
    (zb : Option ℚ) (b : ℚ × ℚ) : ℤ :=
  let ds := colDists A b
  let m := minD ds
  let c0 : ℤ := if maxr ^ 2 < m then -1 else (argminQ ds : ℤ)
  match z1, zb with
  | some v1, some vb =>
    if 1 < ds.countP (fun d => decide (d = m)) then
      (argminQ (v1.map (fun v => |v - vb|)) : ℤ)
    else c0
  | _, _ => c0

/-- Embedding of match_lists (src/wise_stuff.py lines 179-208) with max_r in
array form (np.full expands a scalar to an array of length len(x2)); the
coordinates of each list are paired. -/
def match_lists (x1y1 x2y2 : List (ℚ × ℚ)) (max_r : List ℚ)
    (z1 z2 : Option (List ℚ)) : List ℤ :=
  x2y2.enum.map (fun jb =>
    closestEntry x1y1 (max_r.getD jb.1 0) z1 (z2.map (fun v2 => v2.getD jb.1 0)) jb.2)

/-- match_lists with scalar max_r: the source's np.full expansion. -/
def match_lists_scalar (x1y1 x2y2 : List (ℚ × ℚ)) (r : ℚ)
    (z1 z2 : Option (List ℚ)) : List ℤ :=
  match_lists x1y1 x2y2 (List.replicate x2y2.length r) z1 z2

theorem match_lists_getElem? (A B : List (ℚ × ℚ)) (mr : List ℚ)
    (z1 z2 : Option (List ℚ)) (j : ℕ) :
    (match_lists A B mr z1 z2)[j]? = (B[j]?).map (fun b =>
      closestEntry A (mr.getD j 0) z1 (z2.map (fun v2 => v2.getD j 0)) b) := by
  rw [match_lists, List.getElem?_map, List.getElem?_enum]
  cases B[j]? with
  | none => rfl
  | some b => rfl

/-- C2 (amended): with no velocity arrays supplied, every second-list point
gets the index of the nearest first-list point when the minimal squared
separation is within max_r squared, and the sentinel -1 (never an exception:
the function is total) when it exceeds it; so points separated by less than
max_r are matched and points separated by more are not.  When both velocity
arrays are supplied and the minimum is tied, the tie handling can override
this (claim C3). -/
theorem match_lists_threshold (A B : List (ℚ × ℚ)) (mr : List ℚ) (j : ℕ)
    (hj : j < B.length) (hA : A ≠ []) (_hr : 0 ≤ mr.getD j 0) :
    (minD (colDists A (B.getD j (0, 0))) ≤ mr.getD j 0 ^ 2 →
      (match_lists A B mr none none)[j]? =
        some (argminQ (colDists A (B.getD j (0, 0))) : ℤ) ∧
      argminQ (colDists A (B.getD j (0, 0))) < A.length ∧
      sepSq (A.getD (argminQ (colDists A (B.getD j (0, 0)))) (0, 0)) (B.getD j (0, 0)) =
        minD (colDists A (B.getD j (0, 0))) ∧
      ∀ p ∈ A, minD (colDists A (B.getD j (0, 0))) ≤ sepSq p (B.getD j (0, 0))) ∧
    (mr.getD j 0 ^ 2 < minD (colDists A (B.getD j (0, 0))) →
      (match_lists A B mr none none)[j]? = some (-1)) := by
  have hBj : B[j] = B.getD j (0, 0) := (List.getD_eq_getElem B (0, 0) hj).symm
  have hdsne : colDists A (B.getD j (0, 0)) ≠ [] := by
    rw [colDists]
    intro hc
    exact hA (List.map_eq_nil_iff.mp hc)
  have hdslen : (colDists A (B.getD j (0, 0))).length = A.length := by
    rw [colDists, List.length_map]
  have hentry : (match_lists A B mr none none)[j]? =
      some (if mr.getD j 0 ^ 2 < minD (colDists A (B.getD j (0, 0))) then (-1 : ℤ)
        else (argminQ (colDists A (B.getD j (0, 0))) : ℤ)) := by
    rw [match_lists_getElem?, List.getElem?_eq_getElem hj]
    simp only [Option.map_some']
    rw [hBj]
    rfl
  constructor
  · intro hle
    have hnotlt : ¬ mr.getD j 0 ^ 2 < minD (colDists A (B.getD j (0, 0))) :=
      not_lt.mpr hle
    have hk : argminQ (colDists A (B.getD j (0, 0))) < A.length := by
      rw [← hdslen]
      exact argminQ_lt_length _ hdsne
    refine ⟨?_, hk, ?_, ?_⟩
    · rw [hentry, if_neg hnotlt]
    · have hkd : argminQ (colDists A (B.getD j (0, 0))) <
          (colDists A (B.getD j (0, 0))).length := by
        rw [hdslen]
        exact hk
      have h1 : (colDists A (B.getD j (0, 0)))[argminQ (colDists A (B.getD j (0, 0)))] =
          minD (colDists A (B.getD j (0, 0))) := by
        rw [← List.getD_eq_getElem _ 0 hkd]
        exact getD_argminQ _ hdsne
      rw [List.getD_eq_getElem A (0, 0) hk, ← h1]
      simp only [colDists, List.getElem_map]
    · intro p hp
      apply minD_le
      simp only [colDists]
      exact List.mem_map.mpr ⟨p, hp, rfl⟩
  · intro hgt
    rw [hentry, if_pos hgt]

/-- Witness for the C2 theorem: one first-list point at the origin, max_r 1;
a second-list point at distance 9/10 is matched to index 0, and one at
distance 11/10 is unmatched. -/
theorem match_lists_threshold_witness :
    (match_lists [((0:ℚ), (0:ℚ))] [((9:ℚ)/10, 0)] [1] none none)[0]? = some 0 ∧
    (match_lists [((0:ℚ), (0:ℚ))] [((11:ℚ)/10, 0)] [1] none none)[0]? = some (-1) := by
  constructor
  · have h := (match_lists_threshold [((0:ℚ), (0:ℚ))] [((9:ℚ)/10, 0)] [1] 0
      (by norm_num) (by simp) (by norm_num)).1
    have := (h (by norm_num [colDists, sepSq, minD, List.getD_cons_zero])).1
    simpa [colDists, argminQ] using this
  · have h := (match_lists_threshold [((0:ℚ), (0:ℚ))] [((11:ℚ)/10, 0)] [1] 0
      (by norm_num) (by simp) (by norm_num)).2
    exact h (by norm_num [colDists, sepSq, minD, List.getD_cons_zero])

/-- C2 counterexample: two first-list points both at squared separation 1
from the lone second-list point, max_r = 1/2, velocities supplied.  The
minimum distance exceeds max_r, so the claim requires the sentinel -1, but
the tie handling overwrites the entry with the velocity argmin 0. -/
theorem match_lists_sentinel_refuted :
    (match_lists [((0:ℚ), (0:ℚ)), (2, 0)] [((1:ℚ), (0:ℚ))] [1/2]
      (some [5, 7]) (some [6]))[0]? = some 0 ∧
    ((1:ℚ)/2) ^ 2 < minD (colDists [((0:ℚ), (0:ℚ)), (2, 0)] (1, 0)) ∧
    (0 : ℤ) ≠ -1 := by
  refine ⟨?_, by norm_num [colDists, sepSq, minD], by decide⟩
  norm_num [match_lists_getElem?, closestEntry, colDists, sepSq, minD, argminQ,
    List.countP_cons, List.countP_nil, List.getD_cons_zero]

/-- C3 (amended): when the column minimum is attained more than once and both
velocity arrays are supplied, the entry for that second-list point becomes
the index minimizing |z1 - z2[j]| over ALL first-list points (first index on
velocity ties) - not merely over the equidistant candidates, and regardless
of max_r (the -1 sentinel is overridden); with no velocity arrays the entry
is the first minimal-distance index in input order whenever it is within
max_r. -/
theorem match_lists_tiebreak (A B : List (ℚ × ℚ)) (mr : List ℚ)
    (v1 v2 : List ℚ) (j : ℕ) (hj : j < B.length)
    (htie : 1 < (colDists A (B.getD j (0, 0))).countP
      (fun d => decide (d = minD (colDists A (B.getD j (0, 0)))))) :
    (match_lists A B mr (some v1) (some v2))[j]? =
      some (argminQ (v1.map (fun v => |v - v2.getD j 0|)) : ℤ) ∧
    (∀ k < argminQ (v1.map (fun v => |v - v2.getD j 0|)),
      minD (v1.map (fun v => |v - v2.getD j 0|)) <
        (v1.map (fun v => |v - v2.getD j 0|)).getD k 0) ∧
    ((match_lists A B mr none none)[j]? =
      some (if mr.getD j 0 ^ 2 < minD (colDists A (B.getD j (0, 0))) then (-1 : ℤ)
        else (argminQ (colDists A (B.getD j (0, 0))) : ℤ))) ∧
    (∀ k < argminQ (colDists A (B.getD j (0, 0))),
      minD (colDists A (B.getD j (0, 0))) < (colDists A (B.getD j (0, 0))).getD k 0) := by
  have hBj : B[j] = B.getD j (0, 0) := (List.getD_eq_getElem B (0, 0) hj).symm
  refine ⟨?_, argminQ_first _, ?_, argminQ_first _⟩
  · rw [match_lists_getElem?, List.getElem?_eq_getElem hj]
    simp only [Option.map_some']
    rw [hBj]
    show some (closestEntry A (mr.getD j 0) (some v1) (some (v2.getD j 0))
      (B.getD j (0, 0))) = _
    simp only [closestEntry]
    rw [if_pos htie]
  · rw [match_lists_getElem?, List.getElem?_eq_getElem hj]
    simp only [Option.map_some']
    rw [hBj]
    rfl

/-- Witness for the C3 theorem: two first-list points tied at squared
separation 1 from the second-list point, velocities 5 and 7 against 6. -/
theorem match_lists_tiebreak_witness :
    (match_lists [((0:ℚ), (0:ℚ)), (2, 0)] [((1:ℚ), (0:ℚ))] [2]
      (some [5, 7]) (some [6]))[0]? =
      some (argminQ (([5, 7] : List ℚ).map (fun v => |v - ([6] : List ℚ).getD 0 0|)) : ℤ) :=
  (match_lists_tiebreak [((0:ℚ), (0:ℚ)), (2, 0)] [((1:ℚ), (0:ℚ))] [2] [5, 7] [6] 0
    (by norm_num)
    (by norm_num [colDists, sepSq, minD, List.countP_cons, List.countP_nil,
      List.getD_cons_zero])).1

/-- C3 counterexample: first-list points (0,0) and (2,0) are equidistant
(squared separation 1) from the second-list point (1,0) and within max_r = 2,
but the velocity tie-break picks index 2, the point (1,3) at squared
separation 9, because its velocity 6 matches best - the returned match is
not among the equidistant candidates. -/
theorem match_lists_tiebreak_candidates_refuted :
    (match_lists [((0:ℚ), (0:ℚ)), (2, 0), (1, 3)] [((1:ℚ), (0:ℚ))] [2]
      (some [10, 20, 6]) (some [6]))[0]? = some 2 ∧
    minD (colDists [((0:ℚ), (0:ℚ)), (2, 0), (1, 3)] (1, 0)) = 1 ∧
    sepSq ((1:ℚ), (3:ℚ)) (1, 0) = 9 ∧ ((9:ℚ) ≠ 1) := by
  refine ⟨?_, by norm_num [colDists, sepSq, minD], by norm_num [sepSq], by norm_num⟩
  norm_num [match_lists_getElem?, closestEntry, colDists, sepSq, minD, argminQ,
    List.countP_cons, List.countP_nil, List.getD_cons_zero]

/-! ## Component Splitter (hii_db/wise.py, add_detections)

One WISE Catalog row, restricted to the fields that the detection-splitting
logic of add_detections reads.  The positional columns (ra, dec via the
external SkyCoord transform, line_freq, continuum, areas, beam) are constant
across the components of a record and independent of the split, and are not
modelled; the Detections rows below carry the per-component fields together
with the record name and component label. -/

structure WRow where
  GName : String
  VLSR : String
  e_VLSR : String
  FWHM : String
  e_FWHM : String
  T_L : String
  e_T_L : String
  Author : String
deriving DecidableEq

/-- ncomp = len(w["VLSR"].split(";")). -/
def ncompOf (w : WRow) : ℕ := (splitSemi w.VLSR).length

/-- The six per-component arrays produced by the splitting stage.  A missing
value (not-a-number sentinel np.nan) is modelled as none. -/
structure RawArrays where
  vlsrs : List ℚ
  e_vlsrs : List (Option ℚ)
  fwhms : List ℚ
  e_fwhms : List (Option ℚ)
  tls : List (Option ℚ)
  e_tls : List (Option ℚ)
deriving DecidableEq

/-- Sequential parse of every field: [float(f) for f in s.split(";")], where
the first malformed field raises (none). -/
def seqParse : List String → Option (List ℚ)
  | [] => some []
  | s :: r =>
    match parseFlt s, seqParse r with
    | some v, some vr => some (v :: vr)
    | _, _ => none

/-- np.array([float(f) for f in s.split(";")]). -/
def parseArr (s : String) : Option (List ℚ) := seqParse (splitSemi s)

/-- A per-component field with the empty-overall fallback: when the string is
nonempty it is split and parsed, otherwise it becomes an array of n
not-a-number sentinels (np.array([np.nan] * ncomp)). -/
def parseOptArr (s : String) (n : ℕ) : Option (List (Option ℚ)) :=
  if 0 < s.length then (parseArr s).map (fun l => l.map some)
  else some (List.replicate n none)

/-- The parsing stage of add_detections (src/hii_db/wise.py lines 264-285):
VLSR and FWHM are parsed unconditionally; e_VLSR, e_FWHM, T_L and e_T_L get
the empty-overall fallback. -/
def splitFields (w : WRow) : Option RawArrays :=
  match parseArr w.VLSR with
  | none => none
  | some vl =>
    match parseOptArr w.e_VLSR (ncompOf w) with
    | none => none
    | some evl =>
      match parseArr w.FWHM with
      | none => none
      | some fw =>
        match parseOptArr w.e_FWHM (ncompOf w) with
        | none => none
        | some efw =>
          match parseOptArr w.T_L (ncompOf w) with
          | none => none
          | some tl =>
            match parseOptArr w.e_T_L (ncompOf w) with
            | none => none
            | some etl => some (RawArrays.mk vl evl fw efw tl etl)

/-- Character-list prefix test. -/
def prefixOfChars : List Char → List Char → Bool
  | [], _ => true
  | _ :: _, [] => false
  | c :: cs, d :: ds => c = d && prefixOfChars cs ds

/-- Substring occurrence test over character lists. -/
def containsSub (pat : List Char) : List Char → Bool
  | [] => prefixOfChars pat []
  | c :: cs => prefixOfChars pat (c :: cs) || containsSub pat cs

/-- Model of the python test: "Caswell" in author. -/
def hasCaswell (author : String) : Bool := containsSub "Caswell".data author.data

/-- The Caswell and Haynes correction (src/hii_db/wise.py lines 287-292):
line temperatures scaled K to mK, error columns overridden with fixed
instrument values 10 mK, 2.5 km/s and 1.5 km/s. -/
def caswellFix (author : String) (ar : RawArrays) : RawArrays :=
  if hasCaswell author then
    RawArrays.mk ar.vlsrs (ar.e_vlsrs.map (fun _ => some (5/2))) ar.fwhms
      (ar.e_fwhms.map (fun _ => some (3/2)))
      (ar.tls.map (Option.map (fun t => t * 1000)))
      (ar.e_tls.map (fun _ => some 10))
  else ar

/-- The component-count consistency check (src/hii_db/wise.py lines 295-306):
the lengths of the five arrays other than vlsrs are compared with ncomp. -/
def lenOK (ar : RawArrays) (n : ℕ) : Bool :=
  (ar.e_vlsrs.length == n) && (ar.fwhms.length == n) && (ar.e_fwhms.length == n)
    && (ar.tls.length == n) && (ar.e_tls.length == n)

/-- The values of one spectral component, as zipped by the loop over
components. -/
structure CompVals where
  vlsr : ℚ
  e_vlsr : Option ℚ
  fwhm : ℚ
  e_fwhm : Option ℚ
  tl : Option ℚ
  e_tl : Option ℚ
deriving DecidableEq

def zipComps : List ℚ → List (Option ℚ) → List ℚ → List (Option ℚ) →
    List (Option ℚ) → List (Option ℚ) → List CompVals
  | v :: vr, a :: ar, f :: fr, b :: br, t :: tr, c :: cr =>
    CompVals.mk v a f b t c :: zipComps vr ar fr br tr cr
  | _, _, _, _, _, _ => []

/-- The key order of np.argsort on line temperatures: not-a-number sentinels
sort last. -/
def tlValRel (x y : Option ℚ) : Bool :=
  match x, y with
  | none, none => true
  | some _, none => true
  | none, some _ => false
  | some x, some y => decide (x ≤ y)

/-- np.argsort(tls) as an order on whole components. -/
def tlRel (a b : CompVals) : Bool := tlValRel a.tl b.tl

/-- One row of the Detections table, restricted to the per-component fields
(column names as in the Detections schema). -/
structure DetRow where
  name : String
  component : Option String
  line : Option ℚ
  e_line : Option ℚ
  vlsr : ℚ
  e_vlsr : Option ℚ
  fwhm : ℚ
  e_fwhm : Option ℚ
deriving DecidableEq

/-- comps = ["a", "b", "c", "d", "e"]. -/
def compLabels : List String := ["a", "b", "c", "d", "e"]

def mkRow (w : WRow) (n : ℕ) (cv : CompVals) (label : String) : DetRow :=
  DetRow.mk w.GName (if n = 1 then none else some label) cv.tl cv.e_tl cv.vlsr
    cv.e_vlsr cv.fwhm cv.e_fwhm

/-- The rows appended for one record: components sorted ascending by line
temperature (np.argsort(tls) applied to every array), zipped with the labels
a..e (python zip truncates at five components), the label suppressed for a
single-component record. -/
def detRows (w : WRow) (ar : RawArrays) : List DetRow :=
  ((sortBy tlRel
      (zipComps ar.vlsrs ar.e_vlsrs ar.fwhms ar.e_fwhms ar.tls ar.e_tls)).zip
    compLabels).map (fun p => mkRow w (ncompOf w) p.1 p.2)

/-- Outcome of add_detections on one record: rows appended (the silent skips
of non-detections give inserted []), the printed PROBLEM WITH ... COMPONENTS
skip, or an unhandled python exception that aborts the batch. -/
inductive RecOutcome where
  | inserted (rows : List DetRow)
  | mismatchReported
  | exception
deriving DecidableEq

/-- Embedding of the per-record body of add_detections
(src/hii_db/wise.py lines 249-380). -/
def processRecord (w : WRow) : RecOutcome :=
  if w.VLSR = "" then .inserted []
  else if w.VLSR = "0.0" ∧ w.FWHM = "" then .inserted []
  else
    match splitFields w with
    | none => .exception
    | some ar0 =>
      let ar := caswellFix w.Author ar0
      if lenOK ar (ncompOf w) then .inserted (detRows w ar)
      else .mismatchReported

/-- One step of the batch loop: an exception aborts everything, a mismatch
skips the record, otherwise its rows are appended. -/
def batchStep (acc : Option (List DetRow)) (w : WRow) : Option (List DetRow) :=
  match acc with
  | none => none
  | some rs =>
    match processRecord w with
    | .inserted rs2 => some (rs ++ rs2)
    | .mismatchReported => some rs
    | .exception => none

/-- The batch loop of add_detections over the whole catalog: none models the
unhandled exception propagating out of the loop. -/
def add_detections (ws : List WRow) : Option (List DetRow) :=
  ws.foldl batchStep (some [])

/-- Number of rows a record contributes (zero for skips and failures). -/
def insertedCount : RecOutcome → ℕ
  | .inserted rs => rs.length
  | _ => 0

theorem length_seqParse {l : List String} {vl : List ℚ}
    (h : seqParse l = some vl) : vl.length = l.length := by
  induction l generalizing vl with
  | nil => simp [seqParse] at h; simp [← h]
  | cons s r ih =>
    simp only [seqParse] at h
    cases hv : parseFlt s with
    | none => rw [hv] at h; simp at h
    | some v =>
      rw [hv] at h
      cases hr : seqParse r with
      | none => rw [hr] at h; simp at h
      | some vr =>
        rw [hr] at h
        simp only [Option.some.injEq] at h
        subst h
        simp [ih hr]

theorem foldl_batchStep_none (ws : List WRow) : ws.foldl batchStep none = none := by
  induction ws with
  | nil => rfl
  | cons w ws ih =>
    rw [List.foldl_cons]
    exact ih

theorem parseFlt_digits (s : String) (hne : s.data ≠ [])
    (hdig : ∀ c ∈ s.data, c.isDigit = true) :
    parseFlt s = some ((natVal s.data : ℕ) : ℚ) := by
  obtain ⟨c, cs, hd⟩ : ∃ c cs, s.data = c :: cs := by
    cases hcs : s.data with
    | nil => exact absurd hcs hne
    | cons c cs => exact ⟨c, cs, rfl⟩
  rw [hd] at hdig
  have hc : c.isDigit = true := hdig c (List.mem_cons_self c cs)
  have hcm : ¬ ((c :: cs).head? = some '-') := by
    simp only [List.head?_cons, Option.some.injEq]
    intro h
    rw [h] at hc
    exact absurd hc (by decide)
  have hcp : ¬ ((c :: cs).head? = some '-' ∨ (c :: cs).head? = some '+') := by
    simp only [List.head?_cons, Option.some.injEq]
    rintro (h | h) <;> (rw [h] at hc; exact absurd hc (by decide))
  have htake : (c :: cs).takeWhile (fun x => x.isDigit) = c :: cs :=
    List.takeWhile_eq_self_iff.mpr hdig
  have hdrop : (c :: cs).dropWhile (fun x => x.isDigit) = [] :=
    List.dropWhile_eq_nil_iff.mpr (fun x hx => hdig x hx)
  simp only [parseFlt, hd, if_neg hcm, if_neg hcp, htake, hdrop]
  simp

theorem splitFields_eq {w : WRow} {ar : RawArrays} (h : splitFields w = some ar) :
    parseArr w.VLSR = some ar.vlsrs ∧
    parseOptArr w.e_VLSR (ncompOf w) = some ar.e_vlsrs ∧
    parseArr w.FWHM = some ar.fwhms ∧
    parseOptArr w.e_FWHM (ncompOf w) = some ar.e_fwhms ∧
    parseOptArr w.T_L (ncompOf w) = some ar.tls ∧
    parseOptArr w.e_T_L (ncompOf w) = some ar.e_tls := by
  cases h1 : parseArr w.VLSR with
  | none => simp [splitFields, h1] at h
  | some vl =>
  cases h2 : parseOptArr w.e_VLSR (ncompOf w) with
  | none => simp [splitFields, h1, h2] at h
  | some evl =>
  cases h3 : parseArr w.FWHM with
  | none => simp [splitFields, h1, h2, h3] at h
  | some fw =>
  cases h4 : parseOptArr w.e_FWHM (ncompOf w) with
  | none => simp [splitFields, h1, h2, h3, h4] at h
  | some efw =>
  cases h5 : parseOptArr w.T_L (ncompOf w) with
  | none => simp [splitFields, h1, h2, h3, h4, h5] at h
  | some tl =>
  cases h6 : parseOptArr w.e_T_L (ncompOf w) with
  | none => simp [splitFields, h1, h2, h3, h4, h5, h6] at h
  | some etl =>
  simp only [splitFields, h1, h2, h3, h4, h5, h6, Option.some.injEq] at h
  subst h
  exact ⟨rfl, rfl, rfl, rfl, rfl, rfl⟩

theorem parseOptArr_empty (n : ℕ) : parseOptArr "" n = some (List.replicate n none) := by
  simp [parseOptArr]

theorem splitFields_vlsrs_length {w : WRow} {ar : RawArrays}
    (h : splitFields w = some ar) : ar.vlsrs.length = ncompOf w := by
  have h1 := (splitFields_eq h).1
  rw [ncompOf, ← length_seqParse h1]

theorem tlValRel_total : ∀ x y : Option ℚ, tlValRel x y = true ∨ tlValRel y x = true := by
  intro x y
  cases x <;> cases y <;> simp only [tlValRel, decide_eq_true_eq]
  · exact Or.inl trivial
  · exact Or.inr trivial
  · exact Or.inl trivial
  · exact le_total _ _

theorem tlValRel_trans : ∀ x y z : Option ℚ,
    tlValRel x y = true → tlValRel y z = true → tlValRel x z = true := by
  intro x y z hxy hyz
  cases x <;> cases y <;> cases z <;>
    simp only [tlValRel, decide_eq_true_eq] at hxy hyz ⊢ <;> try trivial
  exact le_trans hxy hyz

theorem tlRel_total : ∀ a b : CompVals, tlRel a b = true ∨ tlRel b a = true := by
  intro a b
  exact tlValRel_total a.tl b.tl

theorem tlRel_trans : ∀ a b c : CompVals,
    tlRel a b = true → tlRel b c = true → tlRel a c = true := by
  intro a b c
  exact tlValRel_trans a.tl b.tl c.tl

theorem length_zipComps : ∀ (v : List ℚ) (a : List (Option ℚ)) (f : List ℚ)
    (b t c : List (Option ℚ)), a.length = v.length → f.length = v.length →
    b.length = v.length → t.length = v.length → c.length = v.length →
    (zipComps v a f b t c).length = v.length := by
  intro v
  induction v with
  | nil =>
    intro a f b t c ha hf hb ht hc
    simp only [List.length_nil, List.length_eq_zero] at ha hf hb ht hc
    subst ha; subst hf; subst hb; subst ht; subst hc
    rfl
  | cons x xs ih =>
    intro a f b t c ha hf hb ht hc
    cases a with
    | nil => simp at ha
    | cons a0 ar =>
    cases f with
    | nil => simp at hf
    | cons f0 fr =>
    cases b with
    | nil => simp at hb
    | cons b0 br =>
    cases t with
    | nil => simp at ht
    | cons t0 tr =>
    cases c with
    | nil => simp at hc
    | cons c0 cr =>
    simp only [List.length_cons] at ha hf hb ht hc ⊢
    rw [zipComps]
    simp only [List.length_cons]
    rw [ih ar fr br tr cr (by omega) (by omega) (by omega) (by omega) (by omega)]

theorem pairwise_zip_left {α β : Type} {R : α → α → Prop} :
    ∀ (l : List α) (cs : List β), l.Pairwise R →
      (l.zip cs).Pairwise (fun p q => R p.1 q.1) := by
  intro l
  induction l with
  | nil => intro cs h; simp
  | cons x xs ih =>
    intro cs h
    cases cs with
    | nil => simp
    | cons c cr =>
      rcases List.pairwise_cons.mp h with ⟨hx, hxs⟩
      refine List.pairwise_cons.mpr ⟨?_, ih cr hxs⟩
      intro q hq
      obtain ⟨q1, q2⟩ := q
      exact hx q1 (List.of_mem_zip hq).1

theorem map_zip_snd_take {α β : Type} : ∀ (l : List α) (cs : List β),
    l.length ≤ cs.length → (l.zip cs).map Prod.snd = cs.take l.length := by
  intro l
  induction l with
  | nil => intro cs h; simp
  | cons x xs ih =>
    intro cs h
    cases cs with
    | nil => simp at h
    | cons c cr =>
      simp only [List.zip_cons_cons, List.map_cons, List.length_cons,
        List.take_succ_cons]
      rw [ih cr (by simpa using h)]

theorem vlsr_ne_of_ncomp {w : WRow} (hn2 : 2 ≤ ncompOf w) :
    w.VLSR ≠ "" ∧ w.VLSR ≠ "0.0" := by
  constructor <;> intro h <;> rw [ncompOf, h] at hn2 <;> revert hn2 <;> decide

theorem processRecord_eq_detRows {w : WRow} {ar0 : RawArrays}
    (hsf : splitFields w = some ar0)
    (hlen : lenOK (caswellFix w.Author ar0) (ncompOf w) = true)
    (h1 : w.VLSR ≠ "") (h2 : ¬ (w.VLSR = "0.0" ∧ w.FWHM = "")) :
    processRecord w = .inserted (detRows w (caswellFix w.Author ar0)) := by
  simp only [processRecord, if_neg h1, if_neg h2, hsf]
  rw [if_pos hlen]

theorem lenOK_parts {ar : RawArrays} {n : ℕ} (h : lenOK ar n = true) :
    ar.e_vlsrs.length = n ∧ ar.fwhms.length = n ∧ ar.e_fwhms.length = n ∧
    ar.tls.length = n ∧ ar.e_tls.length = n := by
  simp only [lenOK, Bool.and_eq_true, beq_iff_eq] at h
  exact ⟨h.1.1.1.1, h.1.1.1.2, h.1.1.2, h.1.2, h.2⟩

theorem caswellFix_lengths (a : String) (ar : RawArrays) :
    (caswellFix a ar).vlsrs = ar.vlsrs ∧
    (caswellFix a ar).e_vlsrs.length = ar.e_vlsrs.length ∧
    (caswellFix a ar).fwhms = ar.fwhms ∧
    (caswellFix a ar).e_fwhms.length = ar.e_fwhms.length ∧
    (caswellFix a ar).tls.length = ar.tls.length ∧
    (caswellFix a ar).e_tls.length = ar.e_tls.length := by
  rw [caswellFix]
  split <;> simp

theorem length_detRows {w : WRow} {ar : RawArrays}
    (hv : ar.vlsrs.length = ncompOf w) (hlen : lenOK ar (ncompOf w) = true)
    (hn5 : ncompOf w ≤ 5) : (detRows w ar).length = ncompOf w := by
  obtain ⟨l1, l2, l3, l4, l5⟩ := lenOK_parts hlen
  have hz : (zipComps ar.vlsrs ar.e_vlsrs ar.fwhms ar.e_fwhms ar.tls ar.e_tls).length
      = ncompOf w := by
    rw [length_zipComps ar.vlsrs ar.e_vlsrs ar.fwhms ar.e_fwhms ar.tls ar.e_tls
      (by rw [l1, hv]) (by rw [l2, hv]) (by rw [l3, hv]) (by rw [l4, hv])
      (by rw [l5, hv]), hv]
  have hs : (sortBy tlRel
      (zipComps ar.vlsrs ar.e_vlsrs ar.fwhms ar.e_fwhms ar.tls ar.e_tls)).length
      = ncompOf w := by
    rw [(perm_sortBy tlRel _).length_eq, hz]
  rw [detRows, List.length_map, List.length_zip, hs]
  have : compLabels.length = 5 := rfl
  rw [this]
  omega

/-- Core of the multi-component case of the C4 theorem: rows labelled in
ascending line-temperature order, values co-sorted. -/
theorem detRows_sorted_core (w : WRow) (ar0 : RawArrays)
    (hsf : splitFields w = some ar0)
    (hlen : lenOK (caswellFix w.Author ar0) (ncompOf w) = true)
    (hn2 : 2 ≤ ncompOf w) (hn5 : ncompOf w ≤ 5) :
    processRecord w = .inserted (detRows w (caswellFix w.Author ar0)) ∧
    (detRows w (caswellFix w.Author ar0)).length = ncompOf w ∧
    (detRows w (caswellFix w.Author ar0)).map (fun r => r.component) =
      (compLabels.take (ncompOf w)).map some ∧
    (detRows w (caswellFix w.Author ar0)).Pairwise
      (fun r1 r2 => tlValRel r1.line r2.line = true) ∧
    ((detRows w (caswellFix w.Author ar0)).map
        (fun r => CompVals.mk r.vlsr r.e_vlsr r.fwhm r.e_fwhm r.line r.e_line)).Perm
      (zipComps (caswellFix w.Author ar0).vlsrs (caswellFix w.Author ar0).e_vlsrs
        (caswellFix w.Author ar0).fwhms (caswellFix w.Author ar0).e_fwhms
        (caswellFix w.Author ar0).tls (caswellFix w.Author ar0).e_tls) := by
  obtain ⟨hne1, hne0⟩ := vlsr_ne_of_ncomp hn2
  have hne2 : ¬ (w.VLSR = "0.0" ∧ w.FWHM = "") := fun hc => hne0 hc.1
  set ar := caswellFix w.Author ar0 with har
  have hv : ar.vlsrs.length = ncompOf w := by
    rw [har, (caswellFix_lengths w.Author ar0).1]
    exact splitFields_vlsrs_length hsf
  obtain ⟨l1, l2, l3, l4, l5⟩ := lenOK_parts hlen
  set comps := zipComps ar.vlsrs ar.e_vlsrs ar.fwhms ar.e_fwhms ar.tls ar.e_tls
    with hcomps
  have hzlen : comps.length = ncompOf w := by
    rw [hcomps, length_zipComps _ _ _ _ _ _ (by rw [l1, hv]) (by rw [l2, hv])
      (by rw [l3, hv]) (by rw [l4, hv]) (by rw [l5, hv]), hv]
  have hslen : (sortBy tlRel comps).length = ncompOf w := by
    rw [(perm_sortBy tlRel comps).length_eq, hzlen]
  have hle5 : (sortBy tlRel comps).length ≤ compLabels.length := by
    have h5 : compLabels.length = 5 := rfl
    rw [hslen, h5]
    exact hn5
  refine ⟨processRecord_eq_detRows hsf hlen hne1 hne2,
    length_detRows hv hlen hn5, ?_, ?_, ?_⟩
  · rw [detRows, ← hcomps, List.map_map]
    have hcomp : ((fun r : DetRow => r.component) ∘
        (fun p : CompVals × String => mkRow w (ncompOf w) p.1 p.2)) =
        (fun p : CompVals × String => some p.2) := by
      funext p
      simp only [Function.comp, mkRow]
      rw [if_neg (by omega : ¬ ncompOf w = 1)]
    rw [hcomp]
    have hsnd : (fun p : CompVals × String => some p.2) =
        (fun x : String => some x) ∘ Prod.snd := rfl
    rw [hsnd, ← List.map_map, map_zip_snd_take _ _ hle5, hslen]
  · rw [detRows, ← hcomps, List.pairwise_map]
    have hp := pairwise_sortBy tlRel_total tlRel_trans comps
    have hz := pairwise_zip_left (sortBy tlRel comps) compLabels hp
    apply List.Pairwise.imp ?_ hz
    intro p q hpq
    simpa [mkRow, tlRel] using hpq
  · rw [detRows, ← hcomps, List.map_map]
    have hmk : ((fun r : DetRow =>
        CompVals.mk r.vlsr r.e_vlsr r.fwhm r.e_fwhm r.line r.e_line) ∘
        (fun p : CompVals × String => mkRow w (ncompOf w) p.1 p.2)) =
        Prod.fst := by
      funext p
      rfl
    rw [hmk, List.map_fst_zip _ _ hle5]
    exact perm_sortBy tlRel comps

/-- C4: when a SurveyRecord splits into N > 1 Detections (2 to 5 components,
consistent arrays), the rows are labelled a, b, c, ... in ascending order of
line temperature, the row list has one row per component, the line
temperatures are sorted, and the multiset of per-component value tuples is
exactly the parsed (and provenance-corrected) input components, so every
value stays with its component; and when N = 1 every produced row has an
absent (none) component label. -/
theorem add_detections_sorted_components :
    (∀ (w : WRow) (ar0 : RawArrays), splitFields w = some ar0 →
      lenOK (caswellFix w.Author ar0) (ncompOf w) = true →
      2 ≤ ncompOf w → ncompOf w ≤ 5 →
      processRecord w = .inserted (detRows w (caswellFix w.Author ar0)) ∧
      (detRows w (caswellFix w.Author ar0)).length = ncompOf w ∧
      (detRows w (caswellFix w.Author ar0)).map (fun r => r.component) =
        (compLabels.take (ncompOf w)).map some ∧
      (detRows w (caswellFix w.Author ar0)).Pairwise
        (fun r1 r2 => tlValRel r1.line r2.line = true) ∧
      ((detRows w (caswellFix w.Author ar0)).map
          (fun r => CompVals.mk r.vlsr r.e_vlsr r.fwhm r.e_fwhm r.line r.e_line)).Perm
        (zipComps (caswellFix w.Author ar0).vlsrs (caswellFix w.Author ar0).e_vlsrs
          (caswellFix w.Author ar0).fwhms (caswellFix w.Author ar0).e_fwhms
          (caswellFix w.Author ar0).tls (caswellFix w.Author ar0).e_tls)) ∧
    (∀ (w : WRow) (ar0 : RawArrays), splitFields w = some ar0 →
      lenOK (caswellFix w.Author ar0) (ncompOf w) = true →
      ncompOf w = 1 → w.VLSR ≠ "" → ¬ (w.VLSR = "0.0" ∧ w.FWHM = "") →
      processRecord w = .inserted (detRows w (caswellFix w.Author ar0)) ∧
      (detRows w (caswellFix w.Author ar0)).map (fun r => r.component) =
        List.replicate (detRows w (caswellFix w.Author ar0)).length none) := by
  constructor
  · intro w ar0 hsf hlen hn2 hn5
    exact detRows_sorted_core w ar0 hsf hlen hn2 hn5
  · intro w ar0 hsf hlen hn1 hne1 hne2
    refine ⟨processRecord_eq_detRows hsf hlen hne1 hne2, ?_⟩
    have hcomp : ((fun r : DetRow => r.component) ∘
        (fun p : CompVals × String => mkRow w (ncompOf w) p.1 p.2)) =
        (fun p : CompVals × String => (none : Option String)) := by
      funext p
      simp only [Function.comp, mkRow]
      rw [if_pos hn1]
    rw [detRows, List.map_map, hcomp, List.map_const', List.length_map]

/-- C9 (amended): a well-formed multi-component record yields one Detections
row per semicolon-separated velocity component, that is, the semicolon count
of the VLSR field PLUS ONE rows (the claim as stated, rows = semicolon
count, is off by one). -/
theorem add_detections_component_count (w : WRow) (ar0 : RawArrays)
    (hsf : splitFields w = some ar0)
    (hlen : lenOK (caswellFix w.Author ar0) (ncompOf w) = true)
    (hn2 : 2 ≤ ncompOf w) (hn5 : ncompOf w ≤ 5) :
    processRecord w = .inserted (detRows w (caswellFix w.Author ar0)) ∧
    (detRows w (caswellFix w.Author ar0)).length = semicolonCount w.VLSR + 1 := by
  obtain ⟨hne1, hne0⟩ := vlsr_ne_of_ncomp hn2
  have hne2 : ¬ (w.VLSR = "0.0" ∧ w.FWHM = "") := fun hc => hne0 hc.1
  have hv : (caswellFix w.Author ar0).vlsrs.length = ncompOf w := by
    rw [(caswellFix_lengths w.Author ar0).1]
    exact splitFields_vlsrs_length hsf
  refine ⟨processRecord_eq_detRows hsf hlen hne1 hne2, ?_⟩
  rw [length_detRows hv hlen hn5, ncompOf, length_splitSemi]

theorem parseFlt_nat (p : ℕ) (s : String) (h1 : s.data ≠ [])
    (h2 : ∀ c ∈ s.data, c.isDigit = true) (h3 : natVal s.data = p) :
    parseFlt s = some (p : ℚ) := by
  rw [parseFlt_digits s h1 h2, h3]

theorem parseArr_ex1 : parseArr "10;25" = some [10, 25] := by
  have e10 : parseFlt "10" = some 10 := by
    rw [parseFlt_nat 10 "10" (by decide) (by decide) (by decide)]
    norm_num
  have e25 : parseFlt "25" = some 25 := by
    rw [parseFlt_nat 25 "25" (by decide) (by decide) (by decide)]
    norm_num
  rw [parseArr, show splitSemi "10;25" = ["10", "25"] from by decide]
  simp [seqParse, e10, e25]

theorem parseArr_ex2 : parseArr "1;1" = some [1, 1] := by
  have e1 : parseFlt "1" = some 1 := by
    rw [parseFlt_nat 1 "1" (by decide) (by decide) (by decide)]
    norm_num
  rw [parseArr, show splitSemi "1;1" = ["1", "1"] from by decide]
  simp [seqParse, e1]

theorem parseOptArr_ex1 : parseOptArr "5;2" 2 = some [some 5, some 2] := by
  have e5 : parseFlt "5" = some 5 := by
    rw [parseFlt_nat 5 "5" (by decide) (by decide) (by decide)]
    norm_num
  have e2 : parseFlt "2" = some 2 := by
    rw [parseFlt_nat 2 "2" (by decide) (by decide) (by decide)]
    norm_num
  have hp : parseArr "5;2" = some [5, 2] := by
    rw [parseArr, show splitSemi "5;2" = ["5", "2"] from by decide]
    simp [seqParse, e5, e2]
  rw [parseOptArr, if_pos (by decide : 0 < ("5;2" : String).length), hp]
  rfl

/-- Concrete evaluation of the parsing stage on the documented two-component
example record (vlsr 10;25, line_temp 5;2). -/
theorem splitFields_ex1 :
    splitFields (WRow.mk "G1" "10;25" "" "1;1" "" "5;2" "" "X") =
      some (RawArrays.mk [10, 25] [none, none] [1, 1] [none, none]
        [some 5, some 2] [none, none]) := by
  have hn : ncompOf (WRow.mk "G1" "10;25" "" "1;1" "" "5;2" "" "X") = 2 := by decide
  have hoe : parseOptArr "" 2 = some [none, none] := by decide
  simp only [splitFields, hn, parseArr_ex1, parseArr_ex2, parseOptArr_ex1, hoe]

theorem parseArr_ex3 : parseArr "50" = some [50] := by
  have e50 : parseFlt "50" = some 50 := by
    rw [parseFlt_nat 50 "50" (by decide) (by decide) (by decide)]
    norm_num
  rw [parseArr, show splitSemi "50" = ["50"] from by decide]
  simp [seqParse, e50]

theorem parseArr_ex4 : parseArr "1" = some [1] := by
  have e1 : parseFlt "1" = some 1 := by
    rw [parseFlt_nat 1 "1" (by decide) (by decide) (by decide)]
    norm_num
  rw [parseArr, show splitSemi "1" = ["1"] from by decide]
  simp [seqParse, e1]

theorem parseOptArr_ex2 : parseOptArr "2" 1 = some [some 2] := by
  have e2 : parseFlt "2" = some 2 := by
    rw [parseFlt_nat 2 "2" (by decide) (by decide) (by decide)]
    norm_num
  have hp : parseArr "2" = some [2] := by
    rw [parseArr, show splitSemi "2" = ["2"] from by decide]
    simp [seqParse, e2]
  rw [parseOptArr, if_pos (by decide : 0 < ("2" : String).length), hp]
  rfl

/-- Concrete evaluation of the parsing stage on a single-component record
whose optional error fields are all empty. -/
theorem splitFields_ex2 :
    splitFields (WRow.mk "G1" "50" "" "1" "" "2" "" "X") =
      some (RawArrays.mk [50] [none] [1] [none] [some 2] [none]) := by
  have hn : ncompOf (WRow.mk "G1" "50" "" "1" "" "2" "" "X") = 1 := by decide
  have hoe : parseOptArr "" 1 = some [none] := by decide
  simp only [splitFields, hn, parseArr_ex3, parseArr_ex4, parseOptArr_ex2, hoe]

/-- Concrete end-to-end evaluation of the per-record splitter on the
documented example: vlsr 10;25 with line_temp 5;2 yields component a with
line temperature 2 and vlsr 25, then component b with line temperature 5 and
vlsr 10. -/
theorem processRecord_ex1 :
    processRecord (WRow.mk "G1" "10;25" "" "1;1" "" "5;2" "" "X") =
      .inserted [DetRow.mk "G1" (some "a") (some 2) none 25 none 1 none,
        DetRow.mk "G1" (some "b") (some 5) none 10 none 1 none] := by
  have hcas : caswellFix "X" (RawArrays.mk [10, 25] [none, none] [1, 1]
      [none, none] [some 5, some 2] [none, none]) = RawArrays.mk [10, 25]
      [none, none] [1, 1] [none, none] [some 5, some 2] [none, none] := by
    rw [caswellFix, show hasCaswell "X" = false from by decide]
    simp
  have hrel : tlRel (CompVals.mk 10 none 1 none (some 5) none)
      (CompVals.mk 25 none 1 none (some 2) none) = false := by
    rw [tlRel, tlValRel]
    norm_num
  simp only [processRecord]
  rw [if_neg (by decide :
    ¬ ((WRow.mk "G1" "10;25" "" "1;1" "" "5;2" "" "X").VLSR = ""))]
  rw [if_neg (by decide :
    ¬ ((WRow.mk "G1" "10;25" "" "1;1" "" "5;2" "" "X").VLSR = "0.0"
      ∧ (WRow.mk "G1" "10;25" "" "1;1" "" "5;2" "" "X").FWHM = ""))]
  rw [splitFields_ex1]
  simp only [hcas]
  rw [if_pos (by decide : lenOK (RawArrays.mk [10, 25] [none, none] [1, 1]
    [none, none] [some 5, some 2] [none, none])
    (ncompOf (WRow.mk "G1" "10;25" "" "1;1" "" "5;2" "" "X")) = true)]
  simp only [detRows, zipComps, sortBy, insertBy, hrel, Bool.false_eq_true,
    if_false]
  simp [mkRow, ncompOf, compLabels, List.zip,
    show ¬ ((splitSemi "10;25").length = 1) from by decide]

/-- Concrete end-to-end evaluation of the per-record splitter on a
single-component record: the component label is suppressed (none). -/
theorem processRecord_ex2 :
    processRecord (WRow.mk "G1" "50" "" "1" "" "2" "" "X") =
      .inserted [DetRow.mk "G1" none (some 2) none 50 none 1 none] := by
  have hcas : caswellFix "X" (RawArrays.mk [50] [none] [1] [none] [some 2] [none]) =
      RawArrays.mk [50] [none] [1] [none] [some 2] [none] := by
    rw [caswellFix, show hasCaswell "X" = false from by decide]
    simp
  simp only [processRecord]
  rw [if_neg (by decide :
    ¬ ((WRow.mk "G1" "50" "" "1" "" "2" "" "X").VLSR = ""))]
  rw [if_neg (by decide :
    ¬ ((WRow.mk "G1" "50" "" "1" "" "2" "" "X").VLSR = "0.0"
      ∧ (WRow.mk "G1" "50" "" "1" "" "2" "" "X").FWHM = ""))]
  rw [splitFields_ex2]
  simp only [hcas]
  rw [if_pos (by decide : lenOK (RawArrays.mk [50] [none] [1] [none] [some 2] [none])
    (ncompOf (WRow.mk "G1" "50" "" "1" "" "2" "" "X")) = true)]
  simp [detRows, zipComps, sortBy, insertBy, mkRow, ncompOf, compLabels, List.zip,
    show (splitSemi "50").length = 1 from by decide]

/-- C10: a record whose VLSR field is the empty string, or whose VLSR field
is exactly 0.0 while its FWHM field is empty, contributes no Detections rows
and produces no report: the per-record outcome is inserted [], silently
(src/hii_db/wise.py lines 249-254). -/
theorem add_detections_skip_nondetections (w : WRow) :
    (w.VLSR = "" → processRecord w = .inserted []) ∧
    (w.VLSR = "0.0" → w.FWHM = "" → processRecord w = .inserted []) := by
  constructor
  · intro h
    simp [processRecord, h]
  · intro h1 h2
    simp [processRecord, h1, h2]

/-- Witness for the C10 theorem at two concrete records. -/
theorem add_detections_skip_nondetections_witness :
    processRecord (WRow.mk "G1" "" "" "" "" "" "" "A") = .inserted [] ∧
    processRecord (WRow.mk "G2" "0.0" "" "" "" "" "" "A") = .inserted [] :=
  ⟨(add_detections_skip_nondetections (WRow.mk "G1" "" "" "" "" "" "" "A")).1 rfl,
   (add_detections_skip_nondetections (WRow.mk "G2" "0.0" "" "" "" "" "" "A")).2
     rfl rfl⟩

/-- C7 (amended): the fields e_VLSR, e_FWHM, T_L and e_T_L, when empty
overall, are replaced by arrays of not-a-number sentinels of the length of
the velocity array - but FWHM is NOT: a record whose FWHM string is empty
(and whose VLSR does not trigger the non-detection skips) raises the
float("") ValueError, and that exception aborts the whole batch. -/
theorem add_detections_nan_fallback :
    (∀ (w : WRow) (ar : RawArrays), splitFields w = some ar →
      (w.e_VLSR = "" → ar.e_vlsrs = List.replicate (ncompOf w) none) ∧
      (w.e_FWHM = "" → ar.e_fwhms = List.replicate (ncompOf w) none) ∧
      (w.T_L = "" → ar.tls = List.replicate (ncompOf w) none) ∧
      (w.e_T_L = "" → ar.e_tls = List.replicate (ncompOf w) none)) ∧
    (∀ w : WRow, w.FWHM = "" → w.VLSR ≠ "" → w.VLSR ≠ "0.0" →
      processRecord w = .exception) ∧
    (∀ (pre post : List WRow) (w : WRow), processRecord w = .exception →
      add_detections (pre ++ w :: post) = none) := by
  refine ⟨?_, ?_, ?_⟩
  · intro w ar h
    obtain ⟨q1, q2, q3, q4, q5, q6⟩ := splitFields_eq h
    refine ⟨?_, ?_, ?_, ?_⟩ <;> intro he
    · rw [he, parseOptArr_empty] at q2
      exact (Option.some_inj.mp q2).symm
    · rw [he, parseOptArr_empty] at q4
      exact (Option.some_inj.mp q4).symm
    · rw [he, parseOptArr_empty] at q5
      exact (Option.some_inj.mp q5).symm
    · rw [he, parseOptArr_empty] at q6
      exact (Option.some_inj.mp q6).symm
  · intro w hF hV h0
    have hfw : parseArr w.FWHM = none := by rw [hF]; rfl
    have hsf : splitFields w = none := by
      cases hvl : parseArr w.VLSR with
      | none => simp [splitFields, hvl]
      | some vl =>
        cases hev : parseOptArr w.e_VLSR (ncompOf w) with
        | none => simp [splitFields, hvl, hev]
        | some e => simp [splitFields, hvl, hev, hfw]
    have h2 : ¬ (w.VLSR = "0.0" ∧ w.FWHM = "") := fun hc => h0 hc.1
    simp only [processRecord, if_neg hV, if_neg h2, hsf]
  · intro pre post w hw
    rw [add_detections, List.foldl_append, List.foldl_cons]
    have hstep : batchStep (List.foldl batchStep (some []) pre) w = none := by
      cases List.foldl batchStep (some []) pre with
      | none => rfl
      | some rs => simp [batchStep, hw]
    rw [hstep]
    exact foldl_batchStep_none post

/-- Witness for the C7 theorem: the empty e_VLSR of a concrete record becomes
a sentinel array, and a concrete record with empty FWHM raises and makes its
batch fail. -/
theorem add_detections_nan_fallback_witness :
    (RawArrays.mk [50] [none] [1] [none] [some 2] [none]).e_vlsrs =
      List.replicate (ncompOf (WRow.mk "G1" "50" "" "1" "" "2" "" "X")) none ∧
    processRecord (WRow.mk "G2" "50" "" "" "" "" "" "X") = .exception ∧
    add_detections [WRow.mk "G2" "50" "" "" "" "" "" "X"] = none := by
  refine ⟨?_, ?_, ?_⟩
  · exact (add_detections_nan_fallback.1 _ _ splitFields_ex2).1 rfl
  · exact add_detections_nan_fallback.2.1 _ rfl (by decide) (by decide)
  · exact add_detections_nan_fallback.2.2 [] [] _
      (add_detections_nan_fallback.2.1 _ rfl (by decide) (by decide))

/-- C7 counterexample: the claim says an empty FWHM never raises and does not
abort the batch; the record with VLSR 50 and empty FWHM hits float("") and
the one-record batch fails. -/
theorem add_detections_empty_fwhm_refuted :
    processRecord (WRow.mk "G1" "50" "" "" "" "" "" "X") = .exception ∧
    add_detections [WRow.mk "G1" "50" "" "" "" "" "" "X"] = none := by
  exact ⟨by decide, by decide⟩

/-- Witness for the C4 theorem at the documented two-component example record
and at a concrete single-component record, together with the explicit
resulting rows (labels a and b ascending in line temperature for two
components; no label for one component). -/
theorem add_detections_sorted_components_witness :
    processRecord (WRow.mk "G1" "10;25" "" "1;1" "" "5;2" "" "X") =
      .inserted (detRows (WRow.mk "G1" "10;25" "" "1;1" "" "5;2" "" "X")
        (caswellFix "X" (RawArrays.mk [10, 25] [none, none] [1, 1] [none, none]
          [some 5, some 2] [none, none]))) ∧
    processRecord (WRow.mk "G1" "10;25" "" "1;1" "" "5;2" "" "X") =
      .inserted [DetRow.mk "G1" (some "a") (some 2) none 25 none 1 none,
        DetRow.mk "G1" (some "b") (some 5) none 10 none 1 none] ∧
    processRecord (WRow.mk "G1" "50" "" "1" "" "2" "" "X") =
      .inserted (detRows (WRow.mk "G1" "50" "" "1" "" "2" "" "X")
        (caswellFix "X" (RawArrays.mk [50] [none] [1] [none] [some 2] [none]))) ∧
    processRecord (WRow.mk "G1" "50" "" "1" "" "2" "" "X") =
      .inserted [DetRow.mk "G1" none (some 2) none 50 none 1 none] :=
  ⟨(add_detections_sorted_components.1 _ _ splitFields_ex1 (by decide) (by decide)
      (by decide)).1,
   processRecord_ex1,
   (add_detections_sorted_components.2 _ _ splitFields_ex2 (by decide) (by decide)
      (by decide) (by decide)).1,
   processRecord_ex2⟩

/-- Witness for the C9 theorem at the documented example record. -/
theorem add_detections_component_count_witness :
    (detRows (WRow.mk "G1" "10;25" "" "1;1" "" "5;2" "" "X")
      (caswellFix "X" (RawArrays.mk [10, 25] [none, none] [1, 1] [none, none]
        [some 5, some 2] [none, none]))).length = semicolonCount "10;25" + 1 :=
  (add_detections_component_count _ _ splitFields_ex1 (by decide) (by decide)
    (by decide)).2

/-- C9 counterexample: the example record with VLSR 10;25 produces two
Detections rows, while the semicolon count of its velocity field is one, so
the row count does not equal the semicolon count (it is one more). -/
theorem add_detections_semicolon_count_refuted :
    insertedCount (processRecord (WRow.mk "G1" "10;25" "" "1;1" "" "5;2" "" "X")) = 2 ∧
    semicolonCount "10;25" = 1 ∧ (2 : ℕ) ≠ 1 := by
  refine ⟨?_, by decide, by decide⟩
  rw [processRecord_ex1]
  rfl

/-! ## Group Aggregator (hii_db/wise.py, gen_groups)

gen_groups scans the catalog rows, keeping three parallel python lists
(all_groups, group_info, group_members); they are modelled as one list of
entries, indexed exactly as the python lists are (all_groups.index is the
first matching index, new groups are appended at the end).  A group-level
field check that fails prints "Group {name} different {field}" and executes
continue, which skips the remaining field checks AND the member append;
field values absorbed before the failing check keep their update, exactly as
the in-place python mutation does.  The printed messages are collected in
the reports list. -/

structure GRow where
  Group : String
  Group_VLSR : String
  Group_e_VLSR : String
  Group_KDAR : String
  GName : String
deriving DecidableEq

structure GEntry where
  name : String
  vlsr : String
  e_vlsr : String
  kdar : String
  members : List String
deriving DecidableEq

structure GState where
  groups : List GEntry
  reports : List String
deriving DecidableEq

/-- Whitespace stripping of python str.strip(). -/
def stripChars (l : List Char) : List Char :=
  ((l.dropWhile (fun c => c.isWhitespace)).reverse.dropWhile
    (fun c => c.isWhitespace)).reverse

def pyStrip (s : String) : String := String.mk (stripChars s.data)

/-- Append the member (the end of the python loop body). -/
def groupCommit (st : GState) (idx : ℕ) (e : GEntry) (w : GRow) : GState :=
  GState.mk
    (st.groups.set idx
      (GEntry.mk e.name e.vlsr e.e_vlsr e.kdar (e.members ++ [w.GName])))
    st.reports

/-- The Group_KDAR check of the loop body. -/
def groupStep3 (st : GState) (idx : ℕ) (e : GEntry) (w : GRow) (g : String) :
    GState :=
  if e.kdar = "" then
    groupCommit st idx (GEntry.mk e.name e.vlsr e.e_vlsr w.Group_KDAR e.members) w
  else if w.Group_KDAR ≠ "" ∧ e.kdar ≠ w.Group_KDAR then
    GState.mk (st.groups.set idx e)
      (st.reports ++ ["Group " ++ g ++ " different KDAR"])
  else groupCommit st idx e w

/-- The Group_e_VLSR check of the loop body. -/
def groupStep2 (st : GState) (idx : ℕ) (e : GEntry) (w : GRow) (g : String) :
    GState :=
  if e.e_vlsr = "" then
    groupStep3 st idx (GEntry.mk e.name e.vlsr w.Group_e_VLSR e.kdar e.members) w g
  else if w.Group_e_VLSR ≠ "" ∧ e.e_vlsr ≠ w.Group_e_VLSR then
    GState.mk (st.groups.set idx e)
      (st.reports ++ ["Group " ++ g ++ " different e_VLSR"])
  else groupStep3 st idx e w g

/-- Embedding of one iteration of the loop of gen_groups
(src/hii_db/wise.py lines 126-159). -/
def groupStep (st : GState) (w : GRow) : GState :=
  if w.Group = "" then st
  else
    let g := pyStrip w.Group
    match st.groups.findIdx? (fun e => e.name == g) with
    | none =>
      GState.mk
        (st.groups ++
          [GEntry.mk g w.Group_VLSR w.Group_e_VLSR w.Group_KDAR [w.GName]])
        st.reports
    | some idx =>
      let e0 := st.groups.getD idx (GEntry.mk "" "" "" "" [])
      if e0.vlsr = "" then
        groupStep2 st idx
          (GEntry.mk e0.name w.Group_VLSR e0.e_vlsr e0.kdar e0.members) w g
      else if w.Group_VLSR ≠ "" ∧ e0.vlsr ≠ w.Group_VLSR then
        GState.mk st.groups
          (st.reports ++ ["Group " ++ g ++ " different VLSR"])
      else groupStep2 st idx e0 w g

/-- The group-collection pass of gen_groups over the whole catalog; the
member lists of the resulting state are what populates CatalogGroups. -/
def gen_groups (rows : List GRow) : GState :=
  rows.foldl groupStep (GState.mk [] [])

/-- C6 (amended): when a later member of an existing group carries a
group-level value (VLSR, e_VLSR or KDAR) that disagrees with the established
nonempty value, the corresponding mismatch is reported (Group {name}
different VLSR / e_VLSR / KDAR) and the rest of the row is then skipped: the
conflicting value is discarded, values absorbed earlier in the same row are
kept, and the row's source is NOT appended to the group's member list (the
python continue jumps past the append), so it does not reach CatalogGroups
through this group.  The four parts cover the VLSR mismatch, the e_VLSR
mismatch after a consistent VLSR, the e_VLSR mismatch after an absorbed VLSR
(the absorbed update persists), and the KDAR mismatch. -/
theorem gen_groups_inconsistent_member :
    (∀ (st : GState) (w : GRow) (idx : ℕ), w.Group ≠ "" →
      st.groups.findIdx? (fun e => e.name == pyStrip w.Group) = some idx →
      (st.groups.getD idx (GEntry.mk "" "" "" "" [])).vlsr ≠ "" →
      w.Group_VLSR ≠ "" →
      (st.groups.getD idx (GEntry.mk "" "" "" "" [])).vlsr ≠ w.Group_VLSR →
      groupStep st w = GState.mk st.groups
        (st.reports ++ ["Group " ++ pyStrip w.Group ++ " different VLSR"])) ∧
    (∀ (st : GState) (w : GRow) (idx : ℕ), w.Group ≠ "" →
      st.groups.findIdx? (fun e => e.name == pyStrip w.Group) = some idx →
      (st.groups.getD idx (GEntry.mk "" "" "" "" [])).vlsr ≠ "" →
      ¬ (w.Group_VLSR ≠ "" ∧
        (st.groups.getD idx (GEntry.mk "" "" "" "" [])).vlsr ≠ w.Group_VLSR) →
      (st.groups.getD idx (GEntry.mk "" "" "" "" [])).e_vlsr ≠ "" →
      w.Group_e_VLSR ≠ "" →
      (st.groups.getD idx (GEntry.mk "" "" "" "" [])).e_vlsr ≠ w.Group_e_VLSR →
      groupStep st w = GState.mk
        (st.groups.set idx (st.groups.getD idx (GEntry.mk "" "" "" "" [])))
        (st.reports ++ ["Group " ++ pyStrip w.Group ++ " different e_VLSR"])) ∧
    (∀ (st : GState) (w : GRow) (idx : ℕ), w.Group ≠ "" →
      st.groups.findIdx? (fun e => e.name == pyStrip w.Group) = some idx →
      (st.groups.getD idx (GEntry.mk "" "" "" "" [])).vlsr = "" →
      (st.groups.getD idx (GEntry.mk "" "" "" "" [])).e_vlsr ≠ "" →
      w.Group_e_VLSR ≠ "" →
      (st.groups.getD idx (GEntry.mk "" "" "" "" [])).e_vlsr ≠ w.Group_e_VLSR →
      groupStep st w = GState.mk
        (st.groups.set idx (GEntry.mk
          (st.groups.getD idx (GEntry.mk "" "" "" "" [])).name w.Group_VLSR
          (st.groups.getD idx (GEntry.mk "" "" "" "" [])).e_vlsr
          (st.groups.getD idx (GEntry.mk "" "" "" "" [])).kdar
          (st.groups.getD idx (GEntry.mk "" "" "" "" [])).members))
        (st.reports ++ ["Group " ++ pyStrip w.Group ++ " different e_VLSR"])) ∧
    (∀ (st : GState) (w : GRow) (idx : ℕ), w.Group ≠ "" →
      st.groups.findIdx? (fun e => e.name == pyStrip w.Group) = some idx →
      (st.groups.getD idx (GEntry.mk "" "" "" "" [])).vlsr ≠ "" →
      ¬ (w.Group_VLSR ≠ "" ∧
        (st.groups.getD idx (GEntry.mk "" "" "" "" [])).vlsr ≠ w.Group_VLSR) →
      (st.groups.getD idx (GEntry.mk "" "" "" "" [])).e_vlsr ≠ "" →
      ¬ (w.Group_e_VLSR ≠ "" ∧
        (st.groups.getD idx (GEntry.mk "" "" "" "" [])).e_vlsr ≠ w.Group_e_VLSR) →
      (st.groups.getD idx (GEntry.mk "" "" "" "" [])).kdar ≠ "" →
      w.Group_KDAR ≠ "" →
      (st.groups.getD idx (GEntry.mk "" "" "" "" [])).kdar ≠ w.Group_KDAR →
      groupStep st w = GState.mk
        (st.groups.set idx (st.groups.getD idx (GEntry.mk "" "" "" "" [])))
        (st.reports ++ ["Group " ++ pyStrip w.Group ++ " different KDAR"])) := by
  refine ⟨?_, ?_, ?_, ?_⟩
  · intro st w idx hG hfind hv hw hne
    simp only [groupStep, if_neg hG, hfind]
    rw [if_neg hv, if_pos ⟨hw, hne⟩]
  · intro st w idx hG hfind hv hcons hev hwev hneev
    simp only [groupStep, if_neg hG, hfind]
    rw [if_neg hv, if_neg hcons]
    simp only [groupStep2]
    rw [if_neg hev, if_pos ⟨hwev, hneev⟩]
  · intro st w idx hG hfind hv0 hev hwev hneev
    simp only [groupStep, if_neg hG, hfind]
    rw [if_pos hv0]
    simp only [groupStep2]
    rw [if_neg hev, if_pos ⟨hwev, hneev⟩]
  · intro st w idx hG hfind hv hcons hev hconse hk hwk hnek
    simp only [groupStep, if_neg hG, hfind]
    rw [if_neg hv, if_neg hcons]
    simp only [groupStep2]
    rw [if_neg hev, if_neg hconse]
    simp only [groupStep3]
    rw [if_neg hk, if_pos ⟨hwk, hnek⟩]

/-- Witness for the C6 theorem: group X established by member G1; a
conflicting row is reported for each of the three group-level fields
(including the absorbed-VLSR route) and is never appended as a member. -/
theorem gen_groups_inconsistent_member_witness :
    groupStep (GState.mk [GEntry.mk "X" "10" "" "" ["G1"]] [])
      (GRow.mk "X" "20" "" "" "G2") =
      GState.mk [GEntry.mk "X" "10" "" "" ["G1"]]
        ([] ++ ["Group " ++ pyStrip "X" ++ " different VLSR"]) ∧
    groupStep (GState.mk [GEntry.mk "X" "10" "2" "" ["G1"]] [])
      (GRow.mk "X" "10" "3" "" "G2") =
      GState.mk [GEntry.mk "X" "10" "2" "" ["G1"]]
        ([] ++ ["Group " ++ pyStrip "X" ++ " different e_VLSR"]) ∧
    groupStep (GState.mk [GEntry.mk "X" "" "2" "" ["G1"]] [])
      (GRow.mk "X" "10" "3" "" "G2") =
      GState.mk [GEntry.mk "X" "10" "2" "" ["G1"]]
        ([] ++ ["Group " ++ pyStrip "X" ++ " different e_VLSR"]) ∧
    groupStep (GState.mk [GEntry.mk "X" "10" "2" "N" ["G1"]] [])
      (GRow.mk "X" "10" "2" "F" "G2") =
      GState.mk [GEntry.mk "X" "10" "2" "N" ["G1"]]
        ([] ++ ["Group " ++ pyStrip "X" ++ " different KDAR"]) := by
  refine ⟨?_, ?_, ?_, ?_⟩
  · have h := gen_groups_inconsistent_member.1
      (GState.mk [GEntry.mk "X" "10" "" "" ["G1"]] [])
      (GRow.mk "X" "20" "" "" "G2") 0 (by decide) (by decide) (by decide)
      (by decide) (by decide)
    rw [h]
  · have h := gen_groups_inconsistent_member.2.1
      (GState.mk [GEntry.mk "X" "10" "2" "" ["G1"]] [])
      (GRow.mk "X" "10" "3" "" "G2") 0 (by decide) (by decide) (by decide)
      (by decide) (by decide) (by decide) (by decide)
    rw [h]
    decide
  · have h := gen_groups_inconsistent_member.2.2.1
      (GState.mk [GEntry.mk "X" "" "2" "" ["G1"]] [])
      (GRow.mk "X" "10" "3" "" "G2") 0 (by decide) (by decide) (by decide)
      (by decide) (by decide) (by decide)
    rw [h]
    decide
  · have h := gen_groups_inconsistent_member.2.2.2
      (GState.mk [GEntry.mk "X" "10" "2" "N" ["G1"]] [])
      (GRow.mk "X" "10" "2" "F" "G2") 0 (by decide) (by decide) (by decide)
      (by decide) (by decide) (by decide) (by decide) (by decide) (by decide)
    rw [h]
    decide

/-- C6 counterexample: the claim says the source of a conflicting value still
becomes a member of the group; processing the rows (X, VLSR 10, G1) and
(X, VLSR 20, G2) reports the mismatch but leaves the member list of X at
[G1]: G2 never becomes a member. -/
theorem gen_groups_membership_refuted :
    gen_groups [GRow.mk "X" "10" "" "" "G1", GRow.mk "X" "20" "" "" "G2"] =
      GState.mk [GEntry.mk "X" "10" "" "" ["G1"]] ["Group X different VLSR"] ∧
    "G2" ∉ (GEntry.mk "X" "10" "" "" ["G1"]).members := by
  constructor <;> decide
